import Mathlib

/-!
Shallow embedding of the function markdown_table_to_csv from src/blueprints.py
(lines 10-56), the markdown-table parser that the specification calls
TableTextParser, together with theorems settling the specified properties.

Strings are modelled as lists of characters.  The Python string primitives the
source uses are embedded one by one: split on a one-character separator,
strip and rstrip with the default whitespace set, strip with the pipe
character as argument (which removes ALL leading and trailing pipes),
replace rendered as filter, and set(...).issubset rendered as List.all.
The two distinct ValueError messages of the source are modelled as the two
constructors of ParseError, matching the failure taxonomy of the spec
(MalformedTableError and EmptyTableError).  The returned pandas DataFrame is
modelled as a structure carrying the column names and the list of rows.
-/

namespace Blueprints

/-- The whitespace characters removed by Python default str.strip and
str.rstrip (the ASCII part of the Python whitespace set). -/
def isPySpace (c : Char) : Bool :=
  c == ' ' || c == '\t' || c == '\n' || c == '\x0b' || c == '\x0c' || c == '\r'

/-- Python s.lstrip with the default whitespace set. -/
def lstrip (s : List Char) : List Char := s.dropWhile isPySpace

/-- Python s.rstrip with the default whitespace set. -/
def rstrip (s : List Char) : List Char := (s.reverse.dropWhile isPySpace).reverse

/-- Python s.strip with the default whitespace set. -/
def strip (s : List Char) : List Char := lstrip (rstrip s)

/-- Python s.split(sep) for a one-character separator: always returns at
least one piece, and an empty string splits to one empty piece. -/
def splitOnChar (sep : Char) : List Char → List (List Char)
  | [] => [[]]
  | c :: cs =>
    if c = sep then [] :: splitOnChar sep cs
    else
      match splitOnChar sep cs with
      | [] => [[c]]
      | l :: ls => (c :: l) :: ls

/-- The test of line 22 of the source: line.strip().startswith of the pipe
character, applied here to the already stripped line. -/
def startsWithPipe (s : List Char) : Bool :=
  match s with
  | [] => false
  | c :: _ => c == '|'

/-- Python row.strip with the pipe character as argument (line 28 of the
source): removes ALL leading and ALL trailing pipe characters. -/
def stripPipes (s : List Char) : List Char :=
  ((s.dropWhile (fun c => c == '|')).reverse.dropWhile (fun c => c == '|')).reverse

/-- The literal padding cell of line 32 of the source. -/
def NA : List Char := "N/A".toList

/-- Lines 27-34 of the source, the inner helper split_row: strip all
leading/trailing pipes, split on the pipe character, strip each cell, append
NA while the count is short (rendered as a replicate append) and slice to
the expected count (rendered as take). -/
def split_row (row : List Char) (expected_cols : Nat) : List (List Char) :=
  let cells := (splitOnChar '|' (stripPipes row)).map strip
  (cells ++ List.replicate (expected_cols - cells.length) NA).take expected_cols

/-- Line 37 of the source: the fixed output schema. -/
def expected_columns : List (List Char) :=
  ["Item Description".toList, "Quantity".toList, "Unit".toList]

/-- Lines 39-40 of the source: when the parsed header has fewer than 3 cells,
rebuild it from the fixed schema padded with the word Unit.  (Dead code in
the source, kept faithfully: split_row always returns exactly 3 cells.) -/
def fixHeader (header : List (List Char)) : List (List Char) :=
  if header.length < 3 then
    expected_columns.take header.length ++ List.replicate (3 - header.length) ("Unit".toList)
  else header

/-- Line 44 of the source: the second table line with every pipe character
and every space character removed (two successive replace calls). -/
def residue (l : List Char) : List Char :=
  (l.filter (fun c => !(c == '|'))).filter (fun c => !(c == ' '))

/-- Lines 44-45 of the source: set(residue).issubset of the singleton dash
set, i.e. every remaining character is a dash (vacuously true when the
residue is empty). -/
def isDashSeparator (l : List Char) : Bool :=
  (residue l).all (fun c => c == '-')

/-- Lines 42-46 of the source: the index of the first data line among the
table lines.  2 when the second table line passes the dash test, else 1. -/
def dataStartIdx (tls : List (List Char)) : Nat :=
  if 1 < tls.length then
    if isDashSeparator (tls.getD 1 []) then 2 else 1
  else 1

/-- The two failure conditions of the parser, matching the two distinct
ValueError messages of the source and the taxonomy of the spec. -/
inductive ParseError
  | malformed
  | empty
  deriving DecidableEq, Repr

/-- The returned DataFrame of line 56 of the source: column names and rows. -/
structure ParsedTable where
  columns : List (List Char)
  rows : List (List (List Char))
  deriving DecidableEq, Repr

/-- Lines 21-22 of the source: split the input on newlines, rstrip each
line, keep the lines whose stripped form starts with a pipe, stripped. -/
def tableLines (text : List Char) : List (List Char) :=
  (((splitOnChar '\n' text).map rstrip).filter (fun l => startsWithPipe (strip l))).map strip

/-- Lines 24-56 of the source, applied to the computed table lines. -/
def parseTableLines (tls : List (List Char)) : Except ParseError ParsedTable :=
  if tls.length < 2 then .error .malformed
  else
    let header := fixHeader (split_row (tls.getD 0 []) 3)
    let data_rows := (tls.drop (dataStartIdx tls)).map (fun row => split_row row header.length)
    if data_rows.isEmpty then .error .empty
    else .ok ⟨expected_columns, data_rows⟩

/-- Lines 10-56 of the source: the whole parser. -/
def markdown_table_to_csv (markdown_text : List Char) : Except ParseError ParsedTable :=
  parseTableLines (tableLines markdown_text)

/-- Remove exactly one leading pipe character when present. -/
def dropOneLeadingPipe : List Char → List Char
  | '|' :: rest => rest
  | s => s

/-- Remove exactly one trailing pipe character when present. -/
def dropOneTrailingPipe (s : List Char) : List Char :=
  (dropOneLeadingPipe s.reverse).reverse

/-- The row rule exactly as the spec words it (one-pipe-strip): remove one
leading and one trailing pipe character, split the remainder on the pipe
character, trim whitespace from each piece, then normalize the cell count.
This definition follows the words of the spec, for comparison with the
definition split_row taken from the source. -/
def split_row_onePipe (row : List Char) (expected_cols : Nat) : List (List Char) :=
  let cells := (splitOnChar '|' (dropOneTrailingPipe (dropOneLeadingPipe row))).map strip
  (cells ++ List.replicate (expected_cols - cells.length) NA).take expected_cols

/-- True when the line contains no newline character, so that joining lines
with newlines and splitting again recovers them. -/
def noNewline (l : List Char) : Bool := l.all (fun c => !(c == '\n'))

/-- Join a list of lines with single newline characters, the inverse of the
newline split for lines free of newline characters. -/
def joinLines : List (List Char) → List Char
  | [] => []
  | [l] => l
  | l :: ls => l ++ '\n' :: joinLines ls

/-- True when the line consists only of pipe and space characters. -/
def pipeSpaceOnly (l : List Char) : Bool := l.all (fun c => c == '|' || c == ' ')

/-- A sample short data row used to instantiate the padding theorem. -/
def exShortRow : List Char := "| Item X | 3 |".toList

/-- A sample data row with multiple leading and trailing pipes, separating
the all-pipe-strip rule of the source from the one-pipe-strip rule of the
spec. -/
def exMultiPipeRow : List Char := "||A|B|C||".toList

/-- A sample input whose only data row has multiple leading and trailing
pipes. -/
def exMultiPipeText : List Char := "|H1|H2|H3|\n|---|\n||A|B|C||".toList

/-- A sample well-formed table input. -/
def exGoodText : List Char :=
  "| Item Description | Quantity | Unit |\n|---|---|---|\n| Concrete Beam | 5 | m |".toList

/-- The table the parser returns on exGoodText. -/
def exGoodTable : ParsedTable :=
  ⟨expected_columns, [["Concrete Beam".toList, "5".toList, "m".toList]]⟩

/-- The table the parser returns on exMultiPipeText. -/
def exMultiPipeTable : ParsedTable :=
  ⟨expected_columns, [["A".toList, "B".toList, "C".toList]]⟩

/-- A sample input with a header line and a dash separator but no data. -/
def exHeaderOnlyText : List Char := "|H|\n|--|".toList

/-- A sample input whose second table line is pipes only. -/
def exPipesOnlyText : List Char := "|H|\n||".toList

/-- A sample input without a separator row: the second table line is data. -/
def exNoSepText : List Char := "| H1 | H2 | H3 |\n| A | 1 | pcs |".toList

/-- The header line of the well-formed example of the spec. -/
def exC1Header : List Char := "| Item Description | Quantity | Unit |".toList

/-- The dash separator line of the well-formed example of the spec. -/
def exC1Sep : List Char := "|---|---|---|".toList

/-- The data lines of the well-formed example of the spec. -/
def exC1Data : List (List Char) :=
  ["| Concrete Beam | 5 | m |".toList, "| M12 Bolts | 10 | pcs |".toList]

/-- Sample lines with non-pipe noise interleaved between table lines. -/
def exNoisyLines : List (List Char) :=
  ["prose before".toList, "|H1|H2|H3|".toList, "noise".toList, "|---|---|---|".toList,
    "more noise".toList, "| A | 1 | pcs |".toList]

theorem split_row_length (row : List Char) (expected_cols : Nat) :
    (split_row row expected_cols).length = expected_cols := by
  unfold split_row
  simp only [List.length_take, List.length_append, List.length_replicate, List.length_map]
  omega

theorem fixHeader_eq (r : List Char) : fixHeader (split_row r 3) = split_row r 3 := by
  unfold fixHeader
  simp [split_row_length]

theorem fixHeader_length (r : List Char) : (fixHeader (split_row r 3)).length = 3 := by
  rw [fixHeader_eq, split_row_length]

theorem isEmpty_map {α β : Type} (f : α → β) (l : List α) : (l.map f).isEmpty = l.isEmpty := by
  cases l <;> rfl

/-- Master unfolding of the parser: the three-way case split of the source. -/
theorem parse_cases (text : List Char) :
    markdown_table_to_csv text =
      if (tableLines text).length < 2 then .error .malformed
      else if ((tableLines text).drop (dataStartIdx (tableLines text))).isEmpty then
        .error .empty
      else
        .ok ⟨expected_columns,
          ((tableLines text).drop (dataStartIdx (tableLines text))).map
            (fun r => split_row r 3)⟩ := by
  unfold markdown_table_to_csv parseTableLines
  simp only [fixHeader_length, isEmpty_map]

theorem parse_ok_of (text : List Char) (h2 : ¬ (tableLines text).length < 2)
    (hne : ((tableLines text).drop (dataStartIdx (tableLines text))).isEmpty = false) :
    markdown_table_to_csv text =
      .ok ⟨expected_columns,
        ((tableLines text).drop (dataStartIdx (tableLines text))).map
          (fun r => split_row r 3)⟩ := by
  rw [parse_cases]
  simp [h2, hne]

theorem rows_eq (text : List Char) (t : ParsedTable)
    (h : markdown_table_to_csv text = .ok t) :
    t.rows = ((tableLines text).drop (dataStartIdx (tableLines text))).map
      (fun r => split_row r 3) ∧ t.columns = expected_columns := by
  rw [parse_cases] at h
  by_cases h2 : (tableLines text).length < 2
  · simp [h2] at h
  · simp only [h2, if_false] at h
    split at h
    · simp at h
    · injection h with h
      rw [← h]
      exact ⟨rfl, rfl⟩

theorem dropWhile_dropWhile {α : Type} (p : α → Bool) (l : List α) :
    (l.dropWhile p).dropWhile p = l.dropWhile p := by
  induction l with
  | nil => rfl
  | cons c cs ih =>
    by_cases h : p c = true
    · simp [List.dropWhile_cons, h, ih]
    · simp [List.dropWhile_cons, h]

theorem rstrip_rstrip (s : List Char) : rstrip (rstrip s) = rstrip s := by
  unfold rstrip
  rw [List.reverse_reverse, dropWhile_dropWhile]

theorem strip_rstrip (s : List Char) : strip (rstrip s) = strip s := by
  unfold strip
  rw [rstrip_rstrip]

theorem noNewline_not_mem (l : List Char) (h : noNewline l = true) : '\n' ∉ l := by
  intro hm
  have := List.all_eq_true.mp h _ hm
  simp at this

theorem splitOnChar_of_not_mem (sep : Char) (l : List Char) (h : sep ∉ l) :
    splitOnChar sep l = [l] := by
  induction l with
  | nil => rfl
  | cons c cs ih =>
    have hc : ¬ c = sep := by
      rintro rfl
      exact h (List.mem_cons_self _ _)
    have hcs : sep ∉ cs := fun m => h (List.mem_cons_of_mem _ m)
    simp [splitOnChar, hc, ih hcs]

theorem splitOnChar_append (sep : Char) (l rest : List Char) (h : sep ∉ l) :
    splitOnChar sep (l ++ sep :: rest) = l :: splitOnChar sep rest := by
  induction l with
  | nil => simp [splitOnChar]
  | cons c cs ih =>
    have hc : ¬ c = sep := by
      rintro rfl
      exact h (List.mem_cons_self _ _)
    have hcs : sep ∉ cs := fun m => h (List.mem_cons_of_mem _ m)
    simp only [List.cons_append, splitOnChar, hc, if_false, List.append_eq, ih hcs]

theorem splitOnChar_joinLines (ls : List (List Char)) (hne : ls ≠ [])
    (hnl : ∀ l ∈ ls, noNewline l = true) :
    splitOnChar '\n' (joinLines ls) = ls := by
  induction ls with
  | nil => exact absurd rfl hne
  | cons l rest ih =>
    cases rest with
    | nil =>
      have : joinLines [l] = l := rfl
      rw [this, splitOnChar_of_not_mem _ _ (noNewline_not_mem l (hnl l (List.mem_cons_self _ _)))]
    | cons l2 rest2 =>
      have hj : joinLines (l :: l2 :: rest2) = l ++ '\n' :: joinLines (l2 :: rest2) := rfl
      rw [hj, splitOnChar_append _ _ _ (noNewline_not_mem l (hnl l (List.mem_cons_self _ _)))]
      rw [ih (by simp) (fun x hx => hnl x (List.mem_cons_of_mem _ hx))]

theorem filterStrip_map_rstrip (ls : List (List Char)) :
    ((ls.map rstrip).filter (fun l => startsWithPipe (strip l))).map strip =
      (ls.filter (fun l => startsWithPipe (strip l))).map strip := by
  induction ls with
  | nil => rfl
  | cons l rest ih =>
    by_cases h : startsWithPipe (strip l) = true
    · have h2 : startsWithPipe (strip (rstrip l)) = true := by rw [strip_rstrip]; exact h
      simp [List.filter_cons, h, h2, ih, strip_rstrip]
    · have h2 : ¬ startsWithPipe (strip (rstrip l)) = true := by rw [strip_rstrip]; exact h
      simp [List.filter_cons, h, h2, ih]

theorem tableLines_joinLines (ls : List (List Char)) (hnl : ∀ l ∈ ls, noNewline l = true) :
    tableLines (joinLines ls) = (ls.filter (fun l => startsWithPipe (strip l))).map strip := by
  cases ls with
  | nil => rfl
  | cons l rest =>
    unfold tableLines
    rw [splitOnChar_joinLines _ (by simp) hnl, filterStrip_map_rstrip]

theorem residue_eq_nil (l : List Char) (h : pipeSpaceOnly l = true) : residue l = [] := by
  unfold residue
  induction l with
  | nil => rfl
  | cons c cs ih =>
    have hc := List.all_eq_true.mp h c (List.mem_cons_self _ _)
    have hcs : pipeSpaceOnly cs = true :=
      List.all_eq_true.mpr fun x hx => List.all_eq_true.mp h x (List.mem_cons_of_mem _ hx)
    rcases Bool.or_eq_true_iff.mp hc with hpipe | hspace
    · simp [List.filter_cons, hpipe, ih hcs]
    · by_cases hp : (c == '|') = true
      · simp [List.filter_cons, hp, ih hcs]
      · simp [List.filter_cons, hp, hspace, ih hcs]

theorem isDashSeparator_of_pipeSpaceOnly (l : List Char) (h : pipeSpaceOnly l = true) :
    isDashSeparator l = true := by
  unfold isDashSeparator
  rw [residue_eq_nil l h]
  rfl

theorem drop_isEmpty_iff {α : Type} (l : List α) (n : Nat) :
    (l.drop n).isEmpty = true ↔ l.length ≤ n := by
  rw [List.isEmpty_iff, List.drop_eq_nil_iff]

theorem tableLines_length_countP (text : List Char) :
    (tableLines text).length =
      (splitOnChar '\n' text).countP (fun l => startsWithPipe (strip l)) := by
  unfold tableLines
  rw [List.length_map, ← List.countP_eq_length_filter, List.countP_map]
  exact List.countP_congr fun x _ => by
    show (startsWithPipe (strip (rstrip x)) = true) ↔ _
    rw [strip_rstrip]

/-- C3: the parser fails with MalformedTableError exactly when the input has
fewer than 2 lines whose first non-whitespace character is a pipe. -/
theorem c3_malformed_iff (text : List Char) :
    markdown_table_to_csv text = .error .malformed ↔
      (splitOnChar '\n' text).countP (fun l => startsWithPipe (strip l)) < 2 := by
  rw [← tableLines_length_countP, parse_cases]
  by_cases h2 : (tableLines text).length < 2
  · simp [h2]
  · simp only [h2, if_false]
    split <;> simp [h2]

/-- C9: the parser is total, and its outcome is exhaustively a parsed table,
a MalformedTableError, or an EmptyTableError. -/
theorem c9_exhaustive_outcomes (text : List Char) :
    (∃ t, markdown_table_to_csv text = .ok t) ∨
      markdown_table_to_csv text = .error .malformed ∨
      markdown_table_to_csv text = .error .empty := by
  cases h : markdown_table_to_csv text with
  | ok t => exact Or.inl ⟨t, rfl⟩
  | error e =>
    cases e with
    | malformed => exact Or.inr (Or.inl rfl)
    | empty => exact Or.inr (Or.inr rfl)

/-- C5: on every success, every row has exactly 3 cells and the column
headers are exactly the fixed schema, whatever the source header said. -/
theorem c5_row_invariant (text : List Char) (t : ParsedTable)
    (h : markdown_table_to_csv text = .ok t) :
    t.columns = expected_columns ∧ ∀ r ∈ t.rows, r.length = 3 := by
  obtain ⟨hr, hc⟩ := rows_eq text t h
  refine ⟨hc, fun r hrm => ?_⟩
  rw [hr] at hrm
  obtain ⟨x, _, rfl⟩ := List.mem_map.mp hrm
  exact split_row_length x 3

/-- Witness for C5 at a concrete well-formed input. -/
theorem c5_row_invariant_witness :
    exGoodTable.columns = expected_columns ∧ ∀ r ∈ exGoodTable.rows, r.length = 3 :=
  c5_row_invariant exGoodText exGoodTable (by rfl)

/-- C7: a short data row is padded with the literal NA string to 3 cells and
a long data row is truncated to its first 3 cells. -/
theorem c7_pad_truncate (row : List Char) :
    (((splitOnChar '|' (stripPipes row)).map strip).length < 3 →
      split_row row 3 = ((splitOnChar '|' (stripPipes row)).map strip) ++
        List.replicate (3 - ((splitOnChar '|' (stripPipes row)).map strip).length) NA) ∧
    (3 < ((splitOnChar '|' (stripPipes row)).map strip).length →
      split_row row 3 = ((splitOnChar '|' (stripPipes row)).map strip).take 3) := by
  constructor
  · intro h
    simp only [split_row]
    exact List.take_of_length_le (by
      simp only [List.length_append, List.length_replicate]
      omega)
  · intro h
    simp only [split_row]
    have h0 : 3 - ((splitOnChar '|' (stripPipes row)).map strip).length = 0 := by omega
    rw [h0]
    simp

/-- Witness for C7 at the two-cell row of the spec example. -/
theorem c7_pad_truncate_witness :
    ((splitOnChar '|' (stripPipes exShortRow)).map strip).length < 3 ∧
      split_row exShortRow 3 = ((splitOnChar '|' (stripPipes exShortRow)).map strip) ++
        List.replicate (3 - ((splitOnChar '|' (stripPipes exShortRow)).map strip).length) NA ∧
      split_row exShortRow 3 = ["Item X".toList, "3".toList, NA] :=
  ⟨by decide, (c7_pad_truncate exShortRow).1 (by decide), by decide⟩

/-- C10: a second table line made only of pipes and spaces passes the dash
test vacuously, so data parsing starts at index 2; when the table lines are
exactly a header plus such a line, the parser fails with EmptyTableError. -/
theorem c10_pipe_space_separator (text : List Char)
    (h2 : 2 ≤ (tableLines text).length)
    (hps : pipeSpaceOnly ((tableLines text).getD 1 []) = true) :
    dataStartIdx (tableLines text) = 2 ∧
      ((tableLines text).length = 2 → markdown_table_to_csv text = .error .empty) := by
  have hd := isDashSeparator_of_pipeSpaceOnly _ hps
  have h1 : 1 < (tableLines text).length := h2
  have hidx : dataStartIdx (tableLines text) = 2 := by
    unfold dataStartIdx
    rw [if_pos h1, if_pos hd]
  refine ⟨hidx, fun hlen => ?_⟩
  have hemp : ((tableLines text).drop (dataStartIdx (tableLines text))).isEmpty = true := by
    rw [hidx, drop_isEmpty_iff]
    omega
  rw [parse_cases, if_neg (by omega), if_pos hemp]

/-- Witness for C10 at a header followed by a pipes-only line. -/
theorem c10_pipe_space_separator_witness :
    dataStartIdx (tableLines exPipesOnlyText) = 2 ∧
      ((tableLines exPipesOnlyText).length = 2 →
        markdown_table_to_csv exPipesOnlyText = .error .empty) :=
  c10_pipe_space_separator exPipesOnlyText (by decide) (by decide)

/-- C4: with at least 2 table lines, the parser fails with EmptyTableError
exactly when no data rows remain after the data-start index, which happens
exactly when the table lines are a header plus a line passing the dash
test; otherwise it returns a parsed table. -/
theorem c4_empty_iff (text : List Char) (h2 : 2 ≤ (tableLines text).length) :
    (markdown_table_to_csv text = .error .empty ↔
      (tableLines text).drop (dataStartIdx (tableLines text)) = []) ∧
    ((tableLines text).drop (dataStartIdx (tableLines text)) = [] ↔
      (tableLines text).length = 2 ∧
        isDashSeparator ((tableLines text).getD 1 []) = true) ∧
    ((tableLines text).drop (dataStartIdx (tableLines text)) ≠ [] →
      ∃ t, markdown_table_to_csv text = .ok t) := by
  have h1 : 1 < (tableLines text).length := h2
  have hlen2 : ¬ (tableLines text).length < 2 := by omega
  have hsplit : (markdown_table_to_csv text = .error .empty ↔
      (tableLines text).drop (dataStartIdx (tableLines text)) = []) := by
    rw [parse_cases, if_neg hlen2]
    by_cases hemp : ((tableLines text).drop (dataStartIdx (tableLines text))).isEmpty = true
    · rw [if_pos hemp]
      simp [List.isEmpty_iff.mp hemp]
    · rw [if_neg hemp]
      simp only [Bool.not_eq_true, List.isEmpty_eq_false] at hemp
      simp [hemp]
  have hchar : ((tableLines text).drop (dataStartIdx (tableLines text)) = [] ↔
      (tableLines text).length = 2 ∧
        isDashSeparator ((tableLines text).getD 1 []) = true) := by
    by_cases hd : isDashSeparator ((tableLines text).getD 1 []) = true
    · have hidx : dataStartIdx (tableLines text) = 2 := by
        unfold dataStartIdx
        rw [if_pos h1, if_pos hd]
      rw [hidx, List.drop_eq_nil_iff]
      constructor
      · intro hle
        exact ⟨by omega, hd⟩
      · intro ⟨hl, _⟩
        omega
    · have hidx : dataStartIdx (tableLines text) = 1 := by
        unfold dataStartIdx
        rw [if_pos h1, if_neg hd]
      rw [hidx, List.drop_eq_nil_iff]
      constructor
      · intro hle
        omega
      · intro ⟨_, hdd⟩
        exact absurd hdd hd
  refine ⟨hsplit, hchar, fun hne => ?_⟩
  have hemp : ((tableLines text).drop (dataStartIdx (tableLines text))).isEmpty = false := by
    rw [List.isEmpty_eq_false]
    exact hne
  exact ⟨_, parse_ok_of text hlen2 hemp⟩

/-- Witness for C4 at a header-plus-separator input with no data rows. -/
theorem c4_empty_iff_witness :
    (markdown_table_to_csv exHeaderOnlyText = .error .empty ↔
      (tableLines exHeaderOnlyText).drop (dataStartIdx (tableLines exHeaderOnlyText)) = []) ∧
    ((tableLines exHeaderOnlyText).drop (dataStartIdx (tableLines exHeaderOnlyText)) = [] ↔
      (tableLines exHeaderOnlyText).length = 2 ∧
        isDashSeparator ((tableLines exHeaderOnlyText).getD 1 []) = true) ∧
    ((tableLines exHeaderOnlyText).drop (dataStartIdx (tableLines exHeaderOnlyText)) ≠ [] →
      ∃ t, markdown_table_to_csv exHeaderOnlyText = .ok t) :=
  c4_empty_iff exHeaderOnlyText (by decide)

/-- C6: with at least 2 table lines, data parsing starts at index 2 exactly
when the second table line passes the dash test (all pipes and spaces
removed, every remaining character a dash); otherwise it starts at index 1
and the second table line becomes the first data row of the output. -/
theorem c6_data_start (text : List Char) (h2 : 2 ≤ (tableLines text).length) :
    dataStartIdx (tableLines text) =
      (if isDashSeparator ((tableLines text).getD 1 []) = true then 2 else 1) ∧
    (isDashSeparator ((tableLines text).getD 1 []) = false →
      ∃ t, markdown_table_to_csv text = .ok t ∧
        t.rows.getD 0 [] = split_row ((tableLines text).getD 1 []) 3) := by
  have h1 : 1 < (tableLines text).length := h2
  have hidx : dataStartIdx (tableLines text) =
      (if isDashSeparator ((tableLines text).getD 1 []) = true then 2 else 1) := by
    unfold dataStartIdx
    rw [if_pos h1]
  refine ⟨hidx, fun hd => ?_⟩
  obtain ⟨a, b, rest, htls⟩ : ∃ a b rest, tableLines text = a :: b :: rest := by
    match hx : tableLines text, h2 with
    | a :: b :: rest, _ => exact ⟨a, b, rest, rfl⟩
  have hidx1 : dataStartIdx (tableLines text) = 1 := by
    rw [hidx, hd]
    rfl
  have hemp : ((tableLines text).drop (dataStartIdx (tableLines text))).isEmpty = false := by
    rw [hidx1, htls]
    rfl
  have hlen2 : ¬ (tableLines text).length < 2 := by omega
  refine ⟨_, parse_ok_of text hlen2 hemp, ?_⟩
  show (((tableLines text).drop (dataStartIdx (tableLines text))).map
      (fun r => split_row r 3)).getD 0 [] = _
  rw [hidx1, htls]
  rfl

/-- Witness for C6 at an input whose second table line is a data row. -/
theorem c6_data_start_witness :
    (dataStartIdx (tableLines exNoSepText) =
      (if isDashSeparator ((tableLines exNoSepText).getD 1 []) = true then 2 else 1)) ∧
    (isDashSeparator ((tableLines exNoSepText).getD 1 []) = false →
      ∃ t, markdown_table_to_csv exNoSepText = .ok t ∧
        t.rows.getD 0 [] = split_row ((tableLines exNoSepText).getD 1 []) 3) :=
  c6_data_start exNoSepText (by decide)

/-- C2, counterexample: the source strips ALL leading and trailing pipes
before splitting, so a data line with doubled pipes does not follow the
one-pipe-strip rule the claim states: under the claim the doubled-pipe row
would keep an empty leading cell, while the parser returns the three
nonempty cells. -/
theorem c2_one_pipe_counterexample :
    markdown_table_to_csv exMultiPipeText = .ok exMultiPipeTable ∧
      exMultiPipeTable.rows = [split_row exMultiPipeRow 3] ∧
      split_row exMultiPipeRow 3 = ["A".toList, "B".toList, "C".toList] ∧
      split_row_onePipe exMultiPipeRow 3 = [[], "A".toList, "B".toList] ∧
      split_row exMultiPipeRow 3 ≠ split_row_onePipe exMultiPipeRow 3 :=
  ⟨rfl, rfl, rfl, rfl, by decide⟩

/-- C2, amended: for every table line the parser splits cells by removing
ALL leading and trailing pipe characters, splitting the remainder on the
pipe character and trimming whitespace from each piece; every output row is
that rule, normalized to 3 cells, applied to the corresponding retained
line. -/
theorem c2_all_pipe_strip (text : List Char) (t : ParsedTable)
    (h : markdown_table_to_csv text = .ok t) :
    t.rows = ((tableLines text).drop (dataStartIdx (tableLines text))).map
      (fun r => split_row r 3) ∧
    ∀ r n, split_row r n =
      (((splitOnChar '|' (stripPipes r)).map strip) ++
        List.replicate (n - ((splitOnChar '|' (stripPipes r)).map strip).length) NA).take n :=
  ⟨(rows_eq text t h).1, fun _ _ => rfl⟩

/-- Witness for the amended C2 at the doubled-pipe input. -/
theorem c2_all_pipe_strip_witness :
    exMultiPipeTable.rows =
      ((tableLines exMultiPipeText).drop (dataStartIdx (tableLines exMultiPipeText))).map
        (fun r => split_row r 3) ∧
    ∀ r n, split_row r n =
      (((splitOnChar '|' (stripPipes r)).map strip) ++
        List.replicate (n - ((splitOnChar '|' (stripPipes r)).map strip).length) NA).take n :=
  c2_all_pipe_strip exMultiPipeText exMultiPipeTable (by rfl)

/-- C1: a pipe-leading header line, a pipe-leading dash separator line and N
pipe-leading data lines parse to exactly N rows of exactly 3 cells each,
with the fixed column names. -/
theorem c1_well_formed (hdr sep : List Char) (ds : List (List Char))
    (hh : startsWithPipe (strip hdr) = true) (hhn : noNewline hdr = true)
    (hsp : startsWithPipe (strip sep) = true) (hsd : isDashSeparator (strip sep) = true)
    (hsn : noNewline sep = true)
    (hd : ∀ d ∈ ds, startsWithPipe (strip d) = true ∧ noNewline d = true)
    (hne : ds ≠ []) :
    ∃ t, markdown_table_to_csv (joinLines (hdr :: sep :: ds)) = .ok t ∧
      t.rows.length = ds.length ∧ (∀ r ∈ t.rows, r.length = 3) ∧
      t.columns = expected_columns := by
  have hnl : ∀ l ∈ (hdr :: sep :: ds), noNewline l = true := by
    intro l hl
    simp only [List.mem_cons] at hl
    rcases hl with rfl | rfl | hl
    · exact hhn
    · exact hsn
    · exact (hd l hl).2
  have hfilter : (hdr :: sep :: ds).filter (fun l => startsWithPipe (strip l)) =
      hdr :: sep :: ds := by
    refine List.filter_eq_self.mpr ?_
    intro a ha
    simp only [List.mem_cons] at ha
    rcases ha with rfl | rfl | ha
    · exact hh
    · exact hsp
    · exact (hd a ha).1
  have htl : tableLines (joinLines (hdr :: sep :: ds)) =
      strip hdr :: strip sep :: ds.map strip := by
    rw [tableLines_joinLines _ hnl, hfilter]
    rfl
  have hidx : dataStartIdx (tableLines (joinLines (hdr :: sep :: ds))) = 2 := by
    rw [htl]
    unfold dataStartIdx
    rw [if_pos (by simp), if_pos (by simpa using hsd)]
  have hdrop : (tableLines (joinLines (hdr :: sep :: ds))).drop
      (dataStartIdx (tableLines (joinLines (hdr :: sep :: ds)))) = ds.map strip := by
    rw [hidx, htl]
    rfl
  have hemp : ((tableLines (joinLines (hdr :: sep :: ds))).drop
      (dataStartIdx (tableLines (joinLines (hdr :: sep :: ds))))).isEmpty = false := by
    rw [hdrop]
    cases ds with
    | nil => exact absurd rfl hne
    | cons d ds2 => rfl
  have hlen2 : ¬ (tableLines (joinLines (hdr :: sep :: ds))).length < 2 := by
    rw [htl]
    simp
  refine ⟨_, parse_ok_of _ hlen2 hemp, ?_, ?_, rfl⟩
  · show (((tableLines (joinLines (hdr :: sep :: ds))).drop
        (dataStartIdx (tableLines (joinLines (hdr :: sep :: ds))))).map
        (fun r => split_row r 3)).length = ds.length
    rw [hdrop]
    simp
  · intro r hr
    rw [show (⟨expected_columns, ((tableLines (joinLines (hdr :: sep :: ds))).drop
        (dataStartIdx (tableLines (joinLines (hdr :: sep :: ds))))).map
        (fun r => split_row r 3)⟩ : ParsedTable).rows =
        ((tableLines (joinLines (hdr :: sep :: ds))).drop
          (dataStartIdx (tableLines (joinLines (hdr :: sep :: ds))))).map
          (fun r => split_row r 3) from rfl, hdrop] at hr
    obtain ⟨x, _, rfl⟩ := List.mem_map.mp hr
    exact split_row_length x 3

/-- Witness for C1 at the well-formed example table of the spec. -/
theorem c1_well_formed_witness :
    ∃ t, markdown_table_to_csv (joinLines (exC1Header :: exC1Sep :: exC1Data)) = .ok t ∧
      t.rows.length = exC1Data.length ∧ (∀ r ∈ t.rows, r.length = 3) ∧
      t.columns = expected_columns :=
  c1_well_formed exC1Header exC1Sep exC1Data (by decide) (by decide) (by decide)
    (by decide) (by decide) (by decide) (by decide)

/-- C8: lines not starting with a pipe are discarded without affecting the
result, even interleaved between table lines, and the output rows follow
the order of the retained pipe-leading lines. -/
theorem c8_noise_dropped (ls : List (List Char))
    (hnl : ∀ l ∈ ls, noNewline l = true) :
    markdown_table_to_csv (joinLines ls) =
      markdown_table_to_csv (joinLines (ls.filter (fun l => startsWithPipe (strip l)))) ∧
    ∀ t, markdown_table_to_csv (joinLines ls) = .ok t →
      t.rows = (((ls.filter (fun l => startsWithPipe (strip l))).map strip).drop
          (dataStartIdx (tableLines (joinLines ls)))).map (fun r => split_row r 3) := by
  have hfl : ∀ l ∈ ls.filter (fun l => startsWithPipe (strip l)), noNewline l = true :=
    fun l hl => hnl l (List.mem_of_mem_filter hl)
  have ht1 : tableLines (joinLines ls) =
      (ls.filter (fun l => startsWithPipe (strip l))).map strip :=
    tableLines_joinLines ls hnl
  have hff : (ls.filter (fun l => startsWithPipe (strip l))).filter
      (fun l => startsWithPipe (strip l)) = ls.filter (fun l => startsWithPipe (strip l)) :=
    List.filter_eq_self.mpr fun a ha => (List.mem_filter.mp ha).2
  have ht2 : tableLines (joinLines (ls.filter (fun l => startsWithPipe (strip l)))) =
      (ls.filter (fun l => startsWithPipe (strip l))).map strip := by
    rw [tableLines_joinLines _ hfl, hff]
  constructor
  · unfold markdown_table_to_csv
    rw [ht1, ht2]
  · intro t h
    rw [(rows_eq _ t h).1, ht1]

/-- Witness for C8 at a concrete input with interleaved noise lines. -/
theorem c8_noise_dropped_witness :
    markdown_table_to_csv (joinLines exNoisyLines) =
      markdown_table_to_csv (joinLines
        (exNoisyLines.filter (fun l => startsWithPipe (strip l)))) :=
  (c8_noise_dropped exNoisyLines (by decide)).1

end Blueprints
